import Mathlib

/-!
Shallow embedding of the supplier-search subsystem of `inventree-part-import`
(registry, dispatcher, and the FE / TI supplier adapters), together with
theorems settling the specification claims about it.

Source files embedded:
- `inventree_part_import/suppliers/__init__.py` (registry + dispatcher),
- `inventree_part_import/suppliers/supplier_fe.py` (FE adapter),
- `inventree_part_import/suppliers/supplier_ti.py` (TI adapter).

Remote I/O is represented by explicit outcome values passed to the embedded
functions; JSON floats (prices, times) are modelled as rationals and JSON
integers as `Int`.  Python dicts are modelled as association lists with
insert-or-replace update (`dictInsert`), which preserves Python dict
insertion-order semantics.
-/

set_option autoImplicit false

/-- Python dict assignment `d[k] = v`: replaces the value of an existing key
in place, otherwise appends the new binding at the end. -/
def dictInsert {α β : Type} [DecidableEq α] : List (α × β) → α → β → List (α × β)
  | [], k, v => [(k, v)]
  | (k', v') :: rest, k, v =>
    if k' = k then (k, v) :: rest else (k', v') :: dictInsert rest k v

/-- Modelled from the spec: `ApiPart` is the Canonical Part Record (spec section 3);
its definition lives in `suppliers/base.py`, which is not part of the given
sources, so the fields are taken from the spec and the two adapters call sites. -/
structure ApiPart where
  description : String
  image_url : Option String
  datasheet_url : Option String
  supplier_link : String
  SKU : String
  manufacturer : String
  manufacturer_link : String
  MPN : String
  quantity_available : Int
  packaging : String
  category_path : List String
  parameters : Option Unit
  price_breaks : List (Int × ℚ)
  currency : String
deriving DecidableEq

/-! ## FE adapter (`supplier_fe.py`) -/

/-- One entry of `fe_part["part_attributes"]`. -/
structure FEAttr where
  name : String
  value : String
deriving DecidableEq

/-- One entry of `fe_part["pricing"]`. -/
structure FEPricingEntry where
  quantity_from : Int
  unit_price : ℚ
deriving DecidableEq

/-- Embeds `fe_part["quantities"]`. -/
structure FEQuantities where
  quantity_minimum : Int
  quantity_available : Int
deriving DecidableEq

/-- One entry of `fe_part["images"]`. -/
structure FEImage where
  url : String
deriving DecidableEq

/-- One entry of `fe_part["documents"]`; `doctype` embeds the JSON field `type`. -/
structure FEDocument where
  url : String
  doctype : String
deriving DecidableEq

/-- Embeds `fe_part["part_id"]`. -/
structure FEPartId where
  web_url : String
  seller_part_number : String
  mpn : String
deriving DecidableEq

/-- Embeds `fe_part["currency"]`. -/
structure FECurrency where
  currency_code : String
deriving DecidableEq

/-- An element of the `result["offers"]` array of the FE lookup response. -/
structure FEPart where
  part_attributes : List FEAttr
  pricing : List FEPricingEntry
  quantities : FEQuantities
  images : List FEImage
  documents : List FEDocument
  part_id : FEPartId
  currency : FECurrency
deriving DecidableEq

/-- The dict comprehension `{v["name"]: v["value"] for v in fe_part["part_attributes"]}`
followed by a key lookup: the last binding of a key wins. -/
def attrLookup (attrs : List FEAttr) (key : String) : Option String :=
  (attrs.reverse.find? (fun a => a.name = key)).map (·.value)

/-- One iteration of the pricing loop in `FE.get_api_part`: entries at or below
the minimum order quantity only update `best_price_for_minimum`, entries above
it are written into the `pricing` dict. -/
def fePricingStep (minimum_qty : Int) (acc : List (Int × ℚ) × Option ℚ)
    (v : FEPricingEntry) : List (Int × ℚ) × Option ℚ :=
  if v.quantity_from ≤ minimum_qty then
    (acc.1,
      match acc.2 with
      | none => some v.unit_price
      | some best => if v.unit_price < best then some v.unit_price else some best)
  else
    (dictInsert acc.1 v.quantity_from v.unit_price, acc.2)

/-- The price-break normalization of `FE.get_api_part` (lines 38-50 of
`supplier_fe.py`): drop breaks at or below the minimum order quantity and, when
any existed, add a single break at the minimum holding the best price seen. -/
def fePriceBreaks (minimum_qty : Int) (entries : List FEPricingEntry) : List (Int × ℚ) :=
  let r := entries.foldl (fePricingStep minimum_qty) ([], none)
  match r.2 with
  | none => r.1
  | some best => dictInsert r.1 minimum_qty best

/-- Embeds `FE.get_api_part`: maps one FE offer into a Canonical Part Record. -/
def FE.get_api_part (fe_part : FEPart) : ApiPart where
  description := (attrLookup fe_part.part_attributes "description (en)").getD ""
  image_url := some ((fe_part.images.getLast?.map (·.url)).getD "")
  datasheet_url :=
    some (((fe_part.documents.find? (fun v => v.doctype.toLower = "datasheet")).map (·.url)).getD "")
  supplier_link := fe_part.part_id.web_url
  SKU := fe_part.part_id.seller_part_number
  manufacturer := (attrLookup fe_part.part_attributes "manufacturerName").getD ""
  manufacturer_link := ""
  MPN := fe_part.part_id.mpn
  quantity_available := fe_part.quantities.quantity_available
  packaging := (attrLookup fe_part.part_attributes "packageType").getD ""
  category_path := []
  parameters := none
  price_breaks := fePriceBreaks fe_part.quantities.quantity_minimum fe_part.pricing
  currency := fe_part.currency.currency_code

/-- The FE lookup response body (`FEApi.lookup` returns its parsed JSON). -/
structure FELookupResult where
  offers : List FEPart
deriving DecidableEq

/-- Embeds `FE.search`: the argument is the outcome of `self.fe_api.lookup(search_term)`
(`none` when the API layer failed and returned `None`). -/
def FE.search (lookupResult : Option FELookupResult) : List ApiPart × Nat :=
  match lookupResult with
  | none => ([], 0)
  | some result => (result.offers.map FE.get_api_part, result.offers.length)

/-! ## TI adapter (`supplier_ti.py`) -/

/-- One entry of `pricingData["priceBreaks"]`. -/
structure TIPriceBreak where
  priceBreakQuantity : Int
  price : ℚ
deriving DecidableEq

/-- One currency-tagged price list from `ti_part["pricing"]`. -/
structure TIPricing where
  currency : String
  priceBreaks : List TIPriceBreak
deriving DecidableEq

/-- One TI product record; `errors` is the optional `"errors"` array of the
product response (a list of `errorCode` strings), present only in the
exact-part lookup path. -/
structure TIPart where
  errors : Option (List String)
  description : String
  buyNowUrl : String
  tiPartNumber : String
  quantity : Int
  packageCarrier : String
  pricing : List TIPricing
deriving DecidableEq

/-- The price-list selection loop at the top of `TI.get_api_part`: take the
first list whose currency is the configured one (breaking out of the loop),
otherwise remember the most recent USD-tagged list as a fallback. -/
def tiSelectPricing (target : String) : TIPricing → List TIPricing → TIPricing
  | acc, [] => acc
  | acc, v :: rest =>
    if v.currency = target then v
    else if v.currency = "USD" then tiSelectPricing target v rest
    else tiSelectPricing target acc rest

/-- The dict comprehension `{v["priceBreakQuantity"]: v["price"] for v in ...}`. -/
def tiPriceBreaksDict (breaks : List TIPriceBreak) : List (Int × ℚ) :=
  breaks.foldl (fun d v => dictInsert d v.priceBreakQuantity v.price) []

/-- Embeds `TI.get_api_part`: maps one TI product into a Canonical Part Record;
`target` is `self.ti_api.currency`. -/
def TI.get_api_part (target : String) (ti_part : TIPart) : ApiPart :=
  let pricingData := tiSelectPricing target ⟨target, []⟩ ti_part.pricing
  { description := ti_part.description
    image_url := none
    datasheet_url := none
    supplier_link := ti_part.buyNowUrl
    SKU := ti_part.tiPartNumber
    manufacturer := "Texas Instruments"
    manufacturer_link := ti_part.buyNowUrl
    MPN := ti_part.tiPartNumber
    quantity_available := ti_part.quantity
    packaging := ti_part.packageCarrier
    category_path := []
    parameters := none
    price_breaks := tiPriceBreaksDict pricingData.priceBreaks
    currency := pricingData.currency }

/-- Embeds `TI._searchForExactPart`: the argument is the outcome of
`self.ti_api.product(search_term)` (`none` when it returned `None`); a response
carrying the error code `ERR-TICOM-INV-API-1002` means the exact part number
does not exist and yields an empty match list. -/
def TI.searchForExactPart (productResult : Option TIPart) : Option (List TIPart) :=
  match productResult with
  | none => none
  | some ti_part =>
    match ti_part.errors with
    | some errs =>
      if "ERR-TICOM-INV-API-1002" ∈ errs then some [] else some [ti_part]
    | none => some [ti_part]

/-- Embeds `TI.search`: `productResult` is the outcome of the exact-part lookup and
`productsResult` the outcome of the paginated generic search, which the code
only performs when the exact lookup completed with zero matches. -/
def TI.search (target : String) (productResult : Option TIPart)
    (productsResult : Option (List TIPart)) : List ApiPart × Nat :=
  let ti_parts :=
    match TI.searchForExactPart productResult with
    | some [] => productsResult
    | r => r
  match ti_parts with
  | none => ([], 0)
  | some parts => (parts.map (TI.get_api_part target), parts.length)

/-! ## Dispatcher (`suppliers/__init__.py`, `search`) -/

/-- A reported diagnostic: `error(...)` or `hint(...)` calls from `error_helper`. -/
inductive LogMsg where
  | logError (msg : String)
  | logHint (msg : String)
deriving DecidableEq

/-- The diagnostic reported for an unknown supplier identifier: the f-string
interpolating `supplier_id` into the error message, naming the identifier. -/
def supplierNotDefinedMsg (supplier_id : String) : String :=
  "supplier id " ++ supplier_id ++ " not defined in suppliers.yaml"

/-- Embeds `search` from `suppliers/__init__.py`: `SUPPLIERS` is the `_SUPPLIERS` dict
(identifier to `(supplier_object, api_company)` pair, the pair abstracted as
`V`).  The first component of the result models the list of
`(api_company, thread_pool.apply_async(supplier_object.search, ...))` handles
(`none` models the `return None` on an unknown identifier: no handle is built
and no supplier search is scheduled); the second collects reported diagnostics.
Note `if supplier_id:` is a Python truthiness test, so both `None` and the
empty string skip the preferred-supplier branch entirely. -/
def Suppliers.search {V : Type} [DecidableEq V] (SUPPLIERS : List (String × V))
    (supplier_id : Option String) (only_supplier : Bool) :
    Option (List V) × List LogMsg :=
  let suppliers := SUPPLIERS.map Prod.snd
  match supplier_id with
  | some sid =>
    if sid = "" then (some suppliers, [])
    else
      match SUPPLIERS.lookup sid with
      | some supplier =>
        if only_supplier then (some [supplier], [])
        else (some (supplier :: suppliers.erase supplier), [])
      | none => (none, [LogMsg.logError (supplierNotDefinedMsg sid)])
  | none => (some suppliers, [])

/-! ## Registry (`suppliers/__init__.py`, `get_supplier_classes`) -/

/-- Exceptions the embedded code can let escape. -/
inductive PyExc where
  | importRaised
  | unboundLocalError
  | connectionError
  | indexError
  | httpErrorRaised
  | jsonDecodeError
deriving DecidableEq

/-- Outcome of importing one `supplier_*.py` module during discovery:
`importError e` is an `ImportError` with message `e` (caught by the code),
`importRaise` is any other exception raised by the import (e.g. a
`SyntaxError` from a malformed module, caught by nothing), and `loaded n`
is a successful import whose namespace defines `n` strict subclasses of
`Supplier`. -/
inductive ModuleLoadResult where
  | importError (e : String)
  | importRaise
  | loaded (supplierClasses : Nat)
deriving DecidableEq

/-- Embeds `module_name.split("supplier_", 1)[-1]`: everything after the first
occurrence of `supplier_`, or the whole name if it does not occur. -/
def moduleId (module_name : String) : String :=
  match module_name.splitOn "supplier_" with
  | [] => module_name
  | [s] => s
  | _ :: rest => "supplier_".intercalate rest

/-- The diagnostic logged when a module is skipped during discovery
(`none` when the module is not skipped with a logged error). -/
def discoveryErrMsg (module_name : String) : ModuleLoadResult → Option String
  | ModuleLoadResult.importError e =>
    some ("failed to load supplier module " ++ module_name ++ " with " ++ e)
  | ModuleLoadResult.importRaise => none
  | ModuleLoadResult.loaded 1 => none
  | ModuleLoadResult.loaded 0 =>
    some ("failed to load supplier module " ++ module_name ++ " (no Supplier class defined)")
  | ModuleLoadResult.loaded (_ + 2) =>
    some ("failed to load supplier module " ++ module_name ++ " (multiple Supplier classes defined)")

/-- The discovery loop of `get_supplier_classes`: walk the `supplier_*.py`
modules in order, skip (with a logged error) the ones that fail with
`ImportError` or do not define exactly one `Supplier` subclass, collect the
identifiers of the rest; an import that raises anything but `ImportError`
escapes the loop. -/
def discoverLoop : List (String × ModuleLoadResult) → List String → List LogMsg →
    Except PyExc (List String × List LogMsg)
  | [], avail, logs => Except.ok (avail, logs)
  | (module_name, res) :: rest, avail, logs =>
    match res with
    | ModuleLoadResult.importRaise => Except.error PyExc.importRaised
    | ModuleLoadResult.loaded 1 =>
      discoverLoop rest (avail ++ [moduleId module_name]) logs
    | r =>
      discoverLoop rest avail
        (logs ++ (discoveryErrMsg module_name r).toList.map LogMsg.logError)

/-- The hint `f"only loaded {loaded} of {available} available supplier modules"`. -/
def onlyLoadedHint (loadedCount availableCount : Nat) : String :=
  "only loaded " ++ toString loadedCount ++ " of " ++ toString availableCount
    ++ " available supplier modules"

/-- Embeds `get_supplier_classes`: modules are described by name and import outcome;
`load_suppliers_config` (defined in `config.py`, an external collaborator of
this subsystem) picks the configured subset of the available identifiers and is
taken as a parameter.  Returns `(AVAILABLE_SUPPLIERS, loaded ids, diagnostics)`
or the escaping exception. -/
def get_supplier_classes (modules : List (String × ModuleLoadResult))
    (load_suppliers_config : List String → List String) :
    Except PyExc (List String × List String × List LogMsg) :=
  match discoverLoop modules [] [] with
  | Except.error e => Except.error e
  | Except.ok (avail, logs) =>
    let loaded := load_suppliers_config avail
    let logs :=
      if loaded.length < avail.length
      then logs ++ [LogMsg.logHint (onlyLoadedHint loaded.length avail.length)]
      else logs
    Except.ok (avail, loaded, logs)

/-! ## Low-level request handling (`FEApi._do_request`, `TIApi._do_request`)

The retry loop `for retry in retry_timeouts(): with retry: ...` comes from
`retries.py`, which is not part of the given sources.  Modelled from the spec
(section 4.1): the policy retries request-level timeouts and connection-level
failures up to a fixed attempt budget and, after exhaustion, lets the
underlying failure propagate to the caller; non-transient failures propagate
immediately.  A `SendOutcome` is therefore the outcome of the whole retried
request phase; the local variable `result` is bound only when a response was
actually received. -/

/-- An HTTP response as the adapters observe it: its status code, and the
outcome of parsing its body as JSON holding an `errors` array (`none` models a
`JSONDecodeError`/`KeyError` when reading `result.json()["errors"]`). -/
structure HttpResponse where
  status_code : Nat
  jsonErrors : Option (List String)
deriving DecidableEq

/-- Outcome of the retried request phase inside `FEApi._do_request`. -/
inductive SendOutcome where
  | response (result : HttpResponse)
  | timeout
  | connFailure
deriving DecidableEq

/-- The shared `except (HTTPError, Timeout)` handler body of both adapters:
`errors = result.json()["errors"][0]` then a logged diagnostic and `return
None`, with only `JSONDecodeError` and `KeyError` caught around it; indexing
`[0]` on an empty `errors` array raises an uncaught `IndexError`.  The handler
is reached with `result` bound to the received response. -/
def errorsHandler (result : HttpResponse) : Except PyExc (Option HttpResponse) :=
  match result.jsonErrors with
  | none => Except.ok none
  | some [] => Except.error PyExc.indexError
  | some (_ :: _) => Except.ok none

/-- Embeds `FEApi._do_request`: `result.raise_for_status()` raises `HTTPError` for any
status of 400 or above, which the `except (HTTPError, Timeout)` clause catches
with `result` bound.  When every attempt timed out, the propagating `Timeout`
is caught but `result` was never bound, so the handler evaluation of
`result.json()` raises an `UnboundLocalError` caught by nothing; a propagating
`ConnectionError` matches neither `HTTPError` nor `Timeout` and escapes
directly. -/
def FEApi.do_request (outcome : SendOutcome) : Except PyExc (Option HttpResponse) :=
  match outcome with
  | SendOutcome.response result =>
    if 400 ≤ result.status_code then errorsHandler result
    else Except.ok (some result)
  | SendOutcome.timeout => Except.error PyExc.unboundLocalError
  | SendOutcome.connFailure => Except.error PyExc.connectionError

/-- Outcome of the retried request phase inside `TIApi._do_request`; `noToken`
models `send()` returning `None` because the OAuth token could not be
obtained. -/
inductive TISendOutcome where
  | noToken
  | response (result : HttpResponse)
  | timeout
  | connFailure
deriving DecidableEq

/-- Embeds `TIApi._do_request`: unlike FE it returns `None` when `send()` yields no
token, and calls `raise_for_status()` only for statuses other than 200, 403
and 404 (403/404 responses are returned to the caller); `raise_for_status()`
itself raises `HTTPError` only for statuses of 400 and above, so any other
response is returned as well.  The failure handler and the unbound `result`
behaviour are as in `FEApi.do_request`. -/
def TIApi.do_request (outcome : TISendOutcome) : Except PyExc (Option HttpResponse) :=
  match outcome with
  | TISendOutcome.noToken => Except.ok none
  | TISendOutcome.response result =>
    if result.status_code = 200 ∨ result.status_code = 404 ∨ result.status_code = 403 then
      Except.ok (some result)
    else if 400 ≤ result.status_code then errorsHandler result
    else Except.ok (some result)
  | TISendOutcome.timeout => Except.error PyExc.unboundLocalError
  | TISendOutcome.connFailure => Except.error PyExc.connectionError

/-! ## OAuth token cache (`TIApi._getOauthToken`) -/

/-- The mutable token cache of a `TIApi` instance. -/
structure TIAuthState where
  oauthAccessToken : String
  oauthValidUntil : ℚ
deriving DecidableEq

/-- Body of a successful token-endpoint response. -/
structure TokenJson where
  token_type : String
  access_token : String
  expires_in : ℚ
deriving DecidableEq

/-- Outcome of `self._do_request("v1/oauth/accesstoken", ...)`: `failed` is a
`None` return; otherwise a response with its status and parsed body (`none`
body models a `JSONDecodeError` from `result.json()`). -/
inductive TokenOutcome where
  | failed
  | response (status : Nat) (body : Option TokenJson)
deriving DecidableEq

/-- Embeds `TIApi._getOauthToken`: `now` is `time.monotonic()` sampled on entry and
`tokenRequest` the outcome of the token request if one is made.  Returns the
token result (or escaping exception), the updated cache, and whether a refresh
request was actually sent.  The cached token is reused iff
`now < oauthValidUntil - 60` (the 60 second `nextRequestBuffer`); on a
successful bearer response the cache becomes the new token with
`oauthValidUntil = now + expires_in`. -/
def TIApi.getOauthToken (now : ℚ) (tokenRequest : TokenOutcome) (st : TIAuthState) :
    Except PyExc (Option String) × TIAuthState × Bool :=
  if now < st.oauthValidUntil - 60 then
    (Except.ok (some st.oauthAccessToken), st, false)
  else
    match tokenRequest with
    | TokenOutcome.failed => (Except.ok none, st, true)
    | TokenOutcome.response status body =>
      if 400 ≤ status then (Except.error PyExc.httpErrorRaised, st, true)
      else
        match body with
        | none => (Except.error PyExc.jsonDecodeError, st, true)
        | some j =>
          if j.token_type = "bearer" then
            (Except.ok (some j.access_token),
              { oauthAccessToken := j.access_token, oauthValidUntil := now + j.expires_in },
              true)
          else (Except.ok none, st, true)

/-! ## Pagination (`TIApi._paginate_api_call`) -/

/-- Outcome of one `self._api_call(action, urldata)` during pagination:
`failed` is a `None` return; a response carries its status and the parsed
`content` array and `last` flag of its body. -/
inductive PageOutcome where
  | failed
  | page (status : Nat) (content : List TIPart) (last : Bool)

/-- The `while True` loop of `TIApi._paginate_api_call`; `api size page` is the
outcome of the page request with `urldata["size"] = size` and
`urldata["page"] = page`.  The extra fuel argument bounds the number of loop
iterations modelled: `none` means the loop did not finish within the fuel,
`some r` that the function returned `r`. -/
def paginateLoop (api : Nat → Nat → PageOutcome) :
    Nat → Nat → List TIPart → Option (Option (List TIPart))
  | 0, _, _ => none
  | fuel + 1, page, results =>
    match api 100 page with
    | PageOutcome.failed => some none
    | PageOutcome.page status content last =>
      if status = 403 ∨ status = 404 then some none
      else
        let results := results ++ content
        if last then some (some results) else paginateLoop api fuel (page + 1) results

/-- Embeds `TIApi._paginate_api_call`: run the pagination loop from page 0 with an
empty accumulator. -/
def TIApi.paginate_api_call (api : Nat → Nat → PageOutcome) (fuel : Nat) :
    Option (Option (List TIPart)) :=
  paginateLoop api fuel 0 []

/-! ## Specification-side definitions (refinement targets) and example inputs -/

/-- Follows the spec wording of the price-break collapsing rule: the mapping
holds exactly the upstream breaks with quantity strictly above the minimum
order quantity, unchanged, plus — when any break exists at or below the
minimum — a single entry keyed by the minimum holding the lowest unit price
among the breaks at or below it. -/
def collapsedBreaksSpec (minimum_qty : Int) (entries : List FEPricingEntry) :
    List (Int × ℚ) :=
  ((entries.filter (fun v => minimum_qty < v.quantity_from)).map
      (fun v => (v.quantity_from, v.unit_price)))
    ++ match ((entries.filter (fun v => v.quantity_from ≤ minimum_qty)).map
          (fun v => v.unit_price)).min? with
       | some best => [(minimum_qty, best)]
       | none => []

/-- The Canonical Part Record invariant stated by the spec: `sku` and `mpn`
not both empty, non-negative available quantity, strictly positive price-break
quantities. -/
def recordInvariant (p : ApiPart) : Prop :=
  ¬(p.SKU = "" ∧ p.MPN = "") ∧ 0 ≤ p.quantity_available ∧
    ∀ kv ∈ p.price_breaks, 0 < kv.1

instance (p : ApiPart) : Decidable (recordInvariant p) := by
  unfold recordInvariant; infer_instance

/-- The identifiers discovery collects: one per module that imports and
defines exactly one `Supplier` subclass. -/
def availOf (modules : List (String × ModuleLoadResult)) : List String :=
  modules.filterMap (fun m =>
    if m.2 = ModuleLoadResult.loaded 1 then some (moduleId m.1) else none)

/-- The error diagnostics discovery reports: one per skipped module, in
module order. -/
def discoveryLogs (modules : List (String × ModuleLoadResult)) : List LogMsg :=
  modules.filterMap (fun m => (discoveryErrMsg m.1 m.2).map LogMsg.logError)

/-- An upstream pagination backend serving the page contents in `contents`:
every page must be requested with size 100 and an in-range page number, the
pages all succeed with status 200, and exactly the final page carries
`last = true`. -/
def apiOfPages (contents : List (List TIPart)) (size page : Nat) : PageOutcome :=
  if size = 100 ∧ page < contents.length then
    PageOutcome.page 200 (contents.getD page []) (page + 1 = contents.length)
  else PageOutcome.failed

/-- Like `apiOfPages contents` but with the request for page `j` failing
(`_api_call` returning `None`). -/
def apiFailAt (contents : List (List TIPart)) (j : Nat) (size page : Nat) : PageOutcome :=
  if page = j then PageOutcome.failed else apiOfPages contents size page

/-- Like `apiOfPages contents` but with page `j` answered with an HTTP 403. -/
def apiForbiddenAt (contents : List (List TIPart)) (j : Nat) (size page : Nat) :
    PageOutcome :=
  if page = j then PageOutcome.page 403 [] false else apiOfPages contents size page

/-- Like `apiOfPages contents` but with page `j` answered with an HTTP 404. -/
def apiNotFoundAt (contents : List (List TIPart)) (j : Nat) (size page : Nat) :
    PageOutcome :=
  if page = j then PageOutcome.page 404 [] false else apiOfPages contents size page

/-- The upstream price breaks of the spec example:
`{1: 2.00, 10: 1.50, 100: 1.20}`. -/
def examplePricing : List FEPricingEntry :=
  [⟨1, 2⟩, ⟨10, 3/2⟩, ⟨100, 6/5⟩]

/-- A syntactically well-formed FE offer with empty identifiers, a negative
stock count, a zero minimum order quantity and a price break at quantity 0:
every field the Canonical Part Record invariant talks about is violated. -/
def badFEPart : FEPart where
  part_attributes := []
  pricing := [⟨0, 1⟩]
  quantities := ⟨0, -1⟩
  images := []
  documents := []
  part_id := ⟨"", "", ""⟩
  currency := ⟨"USD"⟩

/-- A well-formed FE offer used to witness the conditional invariant. -/
def goodFEPart : FEPart where
  part_attributes := [⟨"manufacturerName", "ST"⟩]
  pricing := examplePricing
  quantities := ⟨10, 250⟩
  images := []
  documents := []
  part_id := ⟨"https://fe.example/x", "FE-123", "STM32F4"⟩
  currency := ⟨"EUR"⟩

/-- A TI product offering price lists tagged EUR and USD (in that order). -/
def euUsdTIPart : TIPart where
  errors := none
  description := "buck converter"
  buyNowUrl := "https://ti.example/p"
  tiPartNumber := "TPS62130"
  quantity := 42
  packageCarrier := "REEL"
  pricing := [⟨"EUR", [⟨1, 3⟩]⟩, ⟨"USD", [⟨1, 4⟩, ⟨10, 3⟩]⟩]

/-- A TI exact-part response carrying the does-not-exist error code. -/
def exact1002Part : TIPart where
  errors := some ["ERR-TICOM-INV-API-1002"]
  description := ""
  buyNowUrl := ""
  tiPartNumber := ""
  quantity := 0
  packageCarrier := ""
  pricing := []

/-- A discovery scenario: one good module, one failing with `ImportError`, one
defining no `Supplier` subclass. -/
def regModules : List (String × ModuleLoadResult) :=
  [("supplier_a", ModuleLoadResult.loaded 1),
   ("supplier_b", ModuleLoadResult.importError "m"),
   ("supplier_c", ModuleLoadResult.loaded 0)]

/-! ## Helper lemmas -/

theorem dictInsert_append {α β : Type} [DecidableEq α] (d : List (α × β)) (k : α) (v : β)
    (h : ∀ kv ∈ d, kv.1 ≠ k) : dictInsert d k v = d ++ [(k, v)] := by
  induction d with
  | nil => rfl
  | cons hd tl ih =>
    have hne : hd.1 ≠ k := h hd (by simp)
    simp only [dictInsert, if_neg hne, List.cons_append]
    rw [ih (fun kv hkv => h kv (by simp [hkv]))]

theorem mem_dictInsert {α β : Type} [DecidableEq α] (d : List (α × β)) (k : α) (v : β) :
    ∀ kv ∈ dictInsert d k v, kv = (k, v) ∨ kv ∈ d := by
  induction d with
  | nil => intro kv h; simpa [dictInsert] using h
  | cons hd tl ih =>
    intro kv h
    simp only [dictInsert] at h
    by_cases hk : hd.1 = k
    · rw [if_pos hk] at h
      rcases List.mem_cons.mp h with h | h
      · exact Or.inl h
      · exact Or.inr (List.mem_cons_of_mem _ h)
    · rw [if_neg hk] at h
      rcases List.mem_cons.mp h with h | h
      · exact Or.inr (h ▸ List.mem_cons_self _ _)
      · rcases ih kv h with h | h
        · exact Or.inl h
        · exact Or.inr (List.mem_cons_of_mem _ h)

theorem lookup_mem_map_snd {V : Type} [DecidableEq V] (l : List (String × V)) (k : String)
    (v : V) (h : l.lookup k = some v) : v ∈ l.map Prod.snd := by
  induction l with
  | nil => simp [List.lookup] at h
  | cons hd tl ih =>
    rw [List.lookup] at h
    rcases hbeq : (k == hd.1) with _ | _
    · rw [hbeq] at h
      exact List.mem_cons_of_mem _ (ih h)
    · rw [hbeq] at h
      simp only [Option.some.injEq] at h
      simp [h]

/-! ## Claim C1 -/

/-- Claim C1, counterexample: at the concrete inputs, a failed remote lookup
(`FEApi.lookup` returning `None`, first conjunct) makes `FE.search` return
`([], 0)` — exactly the value the zero-upstream-matches run returns (second
conjunct) — and `TI.search` behaves identically when its product lookup fails
(third conjunct).  So neither adapter returns a failure signal distinct from
the zero-matches result, refuting the claim as stated. -/
theorem fe_ti_search_failure_indistinct_cex :
    FE.search none = ([], 0) ∧ FE.search (some ⟨[]⟩) = ([], 0) ∧
    TI.search "EUR" none none = ([], 0) :=
  ⟨rfl, rfl, rfl⟩

/-- Claim C1, amended: whenever the remote call could not be completed at all,
`FE.search` and `TI.search` return `([], 0)`, the very same value returned for
a term with zero upstream matches; the failure is reported only through a
diagnostic logged in the API layer, not through the return value. -/
theorem fe_ti_search_failure_returns_empty (target : String) :
    FE.search none = ([], 0)
    ∧ (∀ r : FELookupResult, r.offers = [] → FE.search (some r) = ([], 0))
    ∧ (∀ productsResult, TI.search target none productsResult = ([], 0))
    ∧ (∀ p : TIPart, ∀ errs, p.errors = some errs →
        "ERR-TICOM-INV-API-1002" ∈ errs → TI.search target (some p) none = ([], 0))
    ∧ (∀ p : TIPart, ∀ errs, p.errors = some errs →
        "ERR-TICOM-INV-API-1002" ∈ errs → TI.search target (some p) (some []) = ([], 0)) := by
  refine ⟨rfl, ?_, ?_, ?_, ?_⟩
  · intro r h
    simp [FE.search, h]
  · intro productsResult
    simp [TI.search, TI.searchForExactPart]
  · intro p errs herrs hmem
    simp [TI.search, TI.searchForExactPart, herrs, hmem]
  · intro p errs herrs hmem
    simp [TI.search, TI.searchForExactPart, herrs, hmem]

/-- Witness for the amended claim C1 at concrete inputs. -/
theorem fe_ti_search_failure_returns_empty_witness :
    FE.search (some ⟨[]⟩) = ([], 0) ∧ TI.search "EUR" (some exact1002Part) (some []) = ([], 0) :=
  ⟨(fe_ti_search_failure_returns_empty "EUR").2.1 ⟨[]⟩ rfl,
   (fe_ti_search_failure_returns_empty "EUR").2.2.2.2 exact1002Part
     ["ERR-TICOM-INV-API-1002"] rfl (by decide)⟩

/-! ## Claim C4 -/

/-- Claim C4, counterexample: calling `search` with `only_supplier` set and the
identifier `""` — which is not in the loaded-supplier mapping `[("a", 0)]` —
reports no error and schedules a search handle for every loaded supplier,
because `if supplier_id:` treats the empty string as no identifier at all.
This refutes the claim for the concrete input `supplier_id = ""`. -/
theorem search_unknown_supplier_cex :
    Suppliers.search [("a", 0)] (some "") true = (some [0], []) := by
  simp [Suppliers.search]

/-- Claim C4, amended: for every call to `search` with `only_supplier` set and
a NON-EMPTY `supplier_id` that is not in the loaded-supplier mapping, an error
naming the identifier is reported and no search handle is produced (the `none`
result: the handle-building comprehension that schedules each supplier search
never runs, so no supplier search is invoked). -/
theorem search_unknown_supplier_reported {V : Type} [DecidableEq V]
    (SUPPLIERS : List (String × V)) (sid : String)
    (hne : sid ≠ "") (hmiss : SUPPLIERS.lookup sid = none) :
    Suppliers.search SUPPLIERS (some sid) true =
      (none, [LogMsg.logError (supplierNotDefinedMsg sid)]) := by
  simp [Suppliers.search, hne, hmiss]

/-- Witness for the amended claim C4 at a concrete unknown identifier. -/
theorem search_unknown_supplier_reported_witness :
    Suppliers.search [("a", 0)] (some "b") true =
      (none, [LogMsg.logError (supplierNotDefinedMsg "b")]) :=
  search_unknown_supplier_reported [("a", 0)] "b" (by decide) (by decide)

/-! ## Claim C5 -/

/-- Claim C5: with a `supplier_id` naming a loaded supplier and `only_supplier`
not set, the preferred supplier is scheduled first, every other loaded supplier
is still queried, and the handles are a permutation of all loaded suppliers
(one handle per loaded supplier) with the preferred one first. -/
theorem search_preferred_supplier_first {V : Type} [DecidableEq V]
    (SUPPLIERS : List (String × V)) (sid : String) (v : V)
    (hne : sid ≠ "") (hfind : SUPPLIERS.lookup sid = some v) :
    Suppliers.search SUPPLIERS (some sid) false =
      (some (v :: (SUPPLIERS.map Prod.snd).erase v), [])
    ∧ List.Perm (v :: (SUPPLIERS.map Prod.snd).erase v) (SUPPLIERS.map Prod.snd)
    ∧ (v :: (SUPPLIERS.map Prod.snd).erase v).length = SUPPLIERS.length := by
  have hmem : v ∈ SUPPLIERS.map Prod.snd := lookup_mem_map_snd SUPPLIERS sid v hfind
  have hperm := (List.perm_cons_erase hmem).symm
  refine ⟨by simp [Suppliers.search, hne, hfind], hperm, ?_⟩
  rw [hperm.length_eq, List.length_map]

/-- Witness for claim C5: supplier `b` preferred among two loaded suppliers. -/
theorem search_preferred_supplier_first_witness :
    Suppliers.search [("a", 0), ("b", 1)] (some "b") false =
      (some (1 :: ([("a", 0), ("b", 1)].map Prod.snd).erase 1), [])
    ∧ List.Perm (1 :: ([("a", 0), ("b", 1)].map Prod.snd).erase 1)
        ([("a", 0), ("b", 1)].map Prod.snd)
    ∧ (1 :: ([("a", 0), ("b", 1)].map Prod.snd).erase 1).length =
        ([("a", 0), ("b", 1)] : List (String × Nat)).length :=
  search_preferred_supplier_first [("a", 0), ("b", 1)] "b" 1 (by decide) (by decide)

/-! ## Claim C2 -/

theorem fePricing_foldl (m : Int) (entries : List FEPricingEntry) :
    ∀ (pricing : List (Int × ℚ)) (best : Option ℚ),
    (∀ v ∈ entries, m < v.quantity_from → ∀ kv ∈ pricing, kv.1 ≠ v.quantity_from) →
    ((entries.filter (fun v => m < v.quantity_from)).map (fun v => v.quantity_from)).Nodup →
    entries.foldl (fePricingStep m) (pricing, best) =
      (pricing ++ (entries.filter (fun v => m < v.quantity_from)).map
          (fun v => (v.quantity_from, v.unit_price)),
       ((entries.filter (fun v => v.quantity_from ≤ m)).map (fun v => v.unit_price)).foldl
         (fun o p => match o with
           | none => some p
           | some b2 => if p < b2 then some p else some b2) best) := by
  induction entries with
  | nil => intro pricing best _ _; simp
  | cons v rest ih =>
    intro pricing best hfresh hnd
    by_cases hle : v.quantity_from ≤ m
    · have hnlt : ¬ m < v.quantity_from := not_lt.mpr hle
      rw [List.foldl_cons]
      have hstep : fePricingStep m (pricing, best) v =
          (pricing, match best with
            | none => some v.unit_price
            | some b2 => if v.unit_price < b2 then some v.unit_price else some b2) := by
        simp [fePricingStep, hle]
      rw [hstep, ih pricing _ (fun w hw hlt kv hkv => hfresh w (List.mem_cons_of_mem _ hw) hlt kv hkv)
        (by simpa [List.filter_cons, hnlt] using hnd)]
      simp [List.filter_cons, hle, hnlt]
    · have hlt : m < v.quantity_from := lt_of_not_ge hle
      rw [List.foldl_cons]
      have hstep : fePricingStep m (pricing, best) v =
          (dictInsert pricing v.quantity_from v.unit_price, best) := by
        simp [fePricingStep, hle]
      have hfreshv : ∀ kv ∈ pricing, kv.1 ≠ v.quantity_from :=
        hfresh v (List.mem_cons_self _ _) hlt
      have hnd2 : ((rest.filter (fun w => m < w.quantity_from)).map
          (fun w => w.quantity_from)).Nodup := by
        rw [List.filter_cons, if_pos (by simpa using hlt)] at hnd
        exact (List.nodup_cons.mp (by simpa using hnd)).2
      have hnotin : v.quantity_from ∉ (rest.filter (fun w => m < w.quantity_from)).map
          (fun w => w.quantity_from) := by
        rw [List.filter_cons, if_pos (by simpa using hlt)] at hnd
        exact (List.nodup_cons.mp (by simpa using hnd)).1
      rw [hstep, dictInsert_append pricing _ _ hfreshv,
        ih _ best ?_ hnd2]
      · simp [List.filter_cons, hle, hlt, List.append_assoc]
      · intro w hw hwlt kv hkv
        rcases List.mem_append.mp hkv with hkv | hkv
        · exact hfresh w (List.mem_cons_of_mem _ hw) hwlt kv hkv
        · have hkveq : kv = (v.quantity_from, v.unit_price) := by simpa using hkv
          rw [hkveq]
          show v.quantity_from ≠ w.quantity_from
          intro hcontra
          exact hnotin (hcontra ▸
            List.mem_map_of_mem _ (List.mem_filter.mpr ⟨hw, by simpa using hwlt⟩))

theorem bestFold_some (ps : List ℚ) : ∀ b : ℚ,
    ps.foldl (fun o p => match o with
      | none => some p
      | some b2 => if p < b2 then some p else some b2) (some b)
      = some (ps.foldl min b) := by
  induction ps with
  | nil => intro b; rfl
  | cons p rest ih =>
    intro b
    rw [List.foldl_cons, List.foldl_cons]
    have hmin : (if p < b then some p else some b) = some (min b p) := by
      rcases lt_or_ge p b with h | h
      · rw [if_pos h, min_eq_right h.le]
      · rw [if_neg (not_lt.mpr h), min_eq_left h]
    show rest.foldl _ (if p < b then some p else some b) = _
    rw [hmin, ih (min b p)]

theorem bestFold_none (ps : List ℚ) :
    ps.foldl (fun o p => match o with
      | none => some p
      | some b2 => if p < b2 then some p else some b2) none = ps.min? := by
  cases ps with
  | nil => rfl
  | cons p rest =>
    rw [List.foldl_cons]
    show rest.foldl _ (some p) = _
    rw [bestFold_some rest p]
    rfl

theorem foldl_min_spec (rest : List ℚ) : ∀ p : ℚ,
    (rest.foldl min p = p ∨ rest.foldl min p ∈ rest)
    ∧ rest.foldl min p ≤ p ∧ ∀ q ∈ rest, rest.foldl min p ≤ q := by
  induction rest with
  | nil => intro p; exact ⟨Or.inl rfl, le_refl p, by simp⟩
  | cons q rest ih =>
    intro p
    rw [List.foldl_cons]
    obtain ⟨hmem, hle, hall⟩ := ih (min p q)
    refine ⟨?_, ?_, ?_⟩
    · rcases hmem with h | h
      · rcases min_choice p q with hc | hc
        · exact Or.inl (h.trans hc)
        · exact Or.inr (by rw [h, hc]; exact List.mem_cons_self _ _)
      · exact Or.inr (List.mem_cons_of_mem _ h)
    · exact hle.trans (min_le_left p q)
    · intro x hx
      rcases List.mem_cons.mp hx with hx | hx
      · exact hx ▸ hle.trans (min_le_right p q)
      · exact hall x hx

theorem min?_spec (ps : List ℚ) (b : ℚ) (h : ps.min? = some b) :
    b ∈ ps ∧ ∀ p ∈ ps, b ≤ p := by
  cases ps with
  | nil => simp [List.min?] at h
  | cons p rest =>
    have hb : b = rest.foldl min p := by
      have : (p :: rest).min? = some (rest.foldl min p) := rfl
      rw [this] at h
      exact (Option.some.injEq _ _ ▸ h).symm
    obtain ⟨hmem, hle, hall⟩ := foldl_min_spec rest p
    subst hb
    refine ⟨?_, ?_⟩
    · rcases hmem with hm | hm
      · rw [hm]; exact List.mem_cons_self _ _
      · exact List.mem_cons_of_mem _ hm
    · intro x hx
      rcases List.mem_cons.mp hx with hx | hx
      · rw [hx]; exact hle
      · exact hall x hx

/-- Claim C2: for an upstream pricing list (a mapping, so with distinct
quantities) and a stated minimum order quantity, the normalized price breaks
of `FE.get_api_part` are exactly: the breaks strictly above the minimum,
unchanged, plus — when any break exists at or below the minimum — one entry
keyed by the minimum holding the lowest unit price among the breaks at or
below it (`collapsedBreaksSpec`, written from the spec wording); the second
conjunct checks that the selected price really is the least one. -/
theorem fe_price_break_collapse (m : Int) (entries : List FEPricingEntry)
    (hnd : (entries.map (fun v => v.quantity_from)).Nodup) :
    fePriceBreaks m entries = collapsedBreaksSpec m entries
    ∧ ∀ best, ((entries.filter (fun v => v.quantity_from ≤ m)).map
        (fun v => v.unit_price)).min? = some best →
      best ∈ (entries.filter (fun v => v.quantity_from ≤ m)).map (fun v => v.unit_price)
      ∧ ∀ p ∈ (entries.filter (fun v => v.quantity_from ≤ m)).map (fun v => v.unit_price),
          best ≤ p := by
  constructor
  · have hndf : ((entries.filter (fun v => m < v.quantity_from)).map
        (fun v => v.quantity_from)).Nodup :=
      hnd.sublist ((List.filter_sublist entries).map (fun v => v.quantity_from))
    have hfold := fePricing_foldl m entries [] none (by simp) hndf
    have hbest := bestFold_none ((entries.filter (fun v => v.quantity_from ≤ m)).map
      (fun v => v.unit_price))
    rw [hbest] at hfold
    simp only [fePriceBreaks, hfold, List.nil_append]
    rcases hmin : ((entries.filter (fun v => v.quantity_from ≤ m)).map
        (fun v => v.unit_price)).min? with _ | best
    · simp [collapsedBreaksSpec, hmin]
    · simp only [collapsedBreaksSpec, hmin]
      rw [dictInsert_append]
      intro kv hkv
      rcases List.mem_map.mp hkv with ⟨v, hv, hkveq⟩
      have hvlt : m < v.quantity_from := by
        have := List.mem_filter.mp hv
        simpa using this.2
      rw [← hkveq]
      exact ne_of_gt hvlt
  · intro best hmin
    exact min?_spec _ best hmin

/-- Witness for claim C2 at the spec example: upstream breaks
`{1: 2.00, 10: 1.50, 100: 1.20}` with minimum order quantity 10 normalize to
the mapping with exactly the entries `100 : 1.20` and `10 : 1.50` (the
association list below is that mapping; the `qty = 1` break is folded into the
minimum-order entry keeping the lower price 1.50). -/
theorem fe_price_break_collapse_witness :
    fePriceBreaks 10 examplePricing = [(100, 6/5), (10, 3/2)] := by
  have h := fe_price_break_collapse 10 examplePricing (by decide)
  rw [h.1]
  norm_num [collapsedBreaksSpec, examplePricing, List.filter_cons, List.min?, min_def]

/-! ## Claim C3 -/

theorem tiSelect_of_find (target : String) (l : List TIPricing) :
    ∀ (acc w : TIPricing), l.find? (fun v => v.currency = target) = some w →
      tiSelectPricing target acc l = w := by
  induction l with
  | nil => intro acc w h; simp [List.find?] at h
  | cons v rest ih =>
    intro acc w h
    by_cases hv : v.currency = target
    · rw [List.find?_cons_of_pos _ (by simpa using hv)] at h
      simp only [Option.some.injEq] at h
      subst h
      simp [tiSelectPricing, hv]
    · rw [List.find?_cons_of_neg _ (by simpa using hv)] at h
      by_cases husd : v.currency = "USD"
      · simp only [tiSelectPricing, if_neg hv, if_pos husd]
        exact ih v w h
      · simp only [tiSelectPricing, if_neg hv, if_neg husd]
        exact ih acc w h

theorem tiSelect_of_no_match (target : String) (l : List TIPricing) :
    ∀ acc : TIPricing, (∀ v ∈ l, v.currency ≠ target ∧ v.currency ≠ "USD") →
      tiSelectPricing target acc l = acc := by
  induction l with
  | nil => intro acc _; rfl
  | cons v rest ih =>
    intro acc h
    obtain ⟨hv, husd⟩ := h v (List.mem_cons_self _ _)
    simp only [tiSelectPricing, if_neg hv, if_neg husd]
    exact ih acc (fun w hw => h w (List.mem_cons_of_mem _ hw))

theorem tiSelect_no_target (target : String) (l : List TIPricing) :
    ∀ acc : TIPricing, (∀ v ∈ l, v.currency ≠ target) →
      (∃ v ∈ l, v.currency = "USD") →
      (tiSelectPricing target acc l).currency = "USD"
      ∧ tiSelectPricing target acc l ∈ l := by
  induction l with
  | nil => intro acc _ h; simp at h
  | cons v rest ih =>
    intro acc hne husd
    have hv : v.currency ≠ target := hne v (List.mem_cons_self _ _)
    by_cases hvusd : v.currency = "USD"
    · simp only [tiSelectPricing, if_neg hv, if_pos hvusd]
      by_cases hrest : ∃ w ∈ rest, w.currency = "USD"
      · obtain ⟨hc, hm⟩ := ih v (fun w hw => hne w (List.mem_cons_of_mem _ hw)) hrest
        exact ⟨hc, List.mem_cons_of_mem _ hm⟩
      · push_neg at hrest
        rw [tiSelect_of_no_match target rest v
          (fun w hw => ⟨hne w (List.mem_cons_of_mem _ hw), hrest w hw⟩)]
        exact ⟨hvusd, List.mem_cons_self _ _⟩
    · simp only [tiSelectPricing, if_neg hv, if_neg hvusd]
      have hrest : ∃ w ∈ rest, w.currency = "USD" := by
        rcases husd with ⟨w, hw, hwc⟩
        rcases List.mem_cons.mp hw with hw | hw
        · exact absurd (hw ▸ hwc) hvusd
        · exact ⟨w, hw, hwc⟩
      obtain ⟨hc, hm⟩ := ih acc (fun w hw => hne w (List.mem_cons_of_mem _ hw)) hrest
      exact ⟨hc, List.mem_cons_of_mem _ hm⟩

/-- Claim C3: among the currency-tagged price lists of an upstream response,
`TI.get_api_part` selects the (first) list whose currency equals the
configured target currency when one is present; otherwise it falls back to a
USD-tagged list of the response; in both cases the currency field (and the
price breaks) of the produced Canonical Part Record come from the selected
list. -/
theorem ti_currency_selection (target : String) (ti_part : TIPart) :
    (∀ w, ti_part.pricing.find? (fun v => v.currency = target) = some w →
      (TI.get_api_part target ti_part).currency = target
      ∧ (TI.get_api_part target ti_part).price_breaks = tiPriceBreaksDict w.priceBreaks)
    ∧ ((∀ v ∈ ti_part.pricing, v.currency ≠ target) →
       (∃ v ∈ ti_part.pricing, v.currency = "USD") →
        (TI.get_api_part target ti_part).currency = "USD"
        ∧ ∃ w ∈ ti_part.pricing, w.currency = "USD"
            ∧ (TI.get_api_part target ti_part).price_breaks = tiPriceBreaksDict w.priceBreaks) := by
  constructor
  · intro w hfind
    have hsel : tiSelectPricing target ⟨target, []⟩ ti_part.pricing = w :=
      tiSelect_of_find target ti_part.pricing _ w hfind
    have hwc : w.currency = target := by
      have := List.find?_some hfind
      simpa using this
    constructor
    · show (tiSelectPricing target ⟨target, []⟩ ti_part.pricing).currency = target
      rw [hsel, hwc]
    · show tiPriceBreaksDict (tiSelectPricing target ⟨target, []⟩ ti_part.pricing).priceBreaks = _
      rw [hsel]
  · intro hne husd
    obtain ⟨hc, hm⟩ := tiSelect_no_target target ti_part.pricing ⟨target, []⟩ hne husd
    refine ⟨hc, tiSelectPricing target ⟨target, []⟩ ti_part.pricing, hm, hc, rfl⟩

/-- Witness for claim C3: a response with EUR and USD price lists selects USD
under target GBP (the spec example) and EUR under target EUR. -/
theorem ti_currency_selection_witness :
    (TI.get_api_part "GBP" euUsdTIPart).currency = "USD"
    ∧ (TI.get_api_part "EUR" euUsdTIPart).currency = "EUR" := by
  constructor
  · exact ((ti_currency_selection "GBP" euUsdTIPart).2 (by decide) (by decide)).1
  · exact ((ti_currency_selection "EUR" euUsdTIPart).1 ⟨"EUR", [⟨1, 3⟩]⟩ (by decide)).1

/-! ## Claim C6 -/

theorem discoverLoop_eq (modules : List (String × ModuleLoadResult)) :
    ∀ (avail : List String) (logs : List LogMsg),
    (∀ m ∈ modules, m.2 ≠ ModuleLoadResult.importRaise) →
    discoverLoop modules avail logs =
      Except.ok (avail ++ availOf modules, logs ++ discoveryLogs modules) := by
  induction modules with
  | nil => intro avail logs _; simp [discoverLoop, availOf, discoveryLogs]
  | cons m rest ih =>
    intro avail logs h
    have hrest : ∀ w ∈ rest, w.2 ≠ ModuleLoadResult.importRaise :=
      fun w hw => h w (List.mem_cons_of_mem _ hw)
    obtain ⟨name, res⟩ := m
    cases res with
    | importRaise => exact absurd rfl (h (name, ModuleLoadResult.importRaise) (List.mem_cons_self _ _))
    | importError e =>
      rw [show discoverLoop ((name, ModuleLoadResult.importError e) :: rest) avail logs =
          discoverLoop rest avail
            (logs ++ [LogMsg.logError ("failed to load supplier module " ++ name ++ " with " ++ e)])
        from rfl]
      rw [ih avail _ hrest]
      simp [availOf, discoveryLogs, discoveryErrMsg, List.append_assoc]
    | loaded n =>
      match n with
      | 1 =>
        rw [show discoverLoop ((name, ModuleLoadResult.loaded 1) :: rest) avail logs =
            discoverLoop rest (avail ++ [moduleId name]) logs from rfl]
        rw [ih _ logs hrest]
        simp [availOf, discoveryLogs, discoveryErrMsg, List.append_assoc]
      | 0 =>
        rw [show discoverLoop ((name, ModuleLoadResult.loaded 0) :: rest) avail logs =
            discoverLoop rest avail (logs ++ [LogMsg.logError
              ("failed to load supplier module " ++ name ++ " (no Supplier class defined)")])
          from rfl]
        rw [ih avail _ hrest]
        simp [availOf, discoveryLogs, discoveryErrMsg, List.append_assoc]
      | k + 2 =>
        rw [show discoverLoop ((name, ModuleLoadResult.loaded (k + 2)) :: rest) avail logs =
            discoverLoop rest avail (logs ++ [LogMsg.logError
              ("failed to load supplier module " ++ name ++ " (multiple Supplier classes defined)")])
          from rfl]
        rw [ih avail _ hrest]
        simp [availOf, discoveryLogs, discoveryErrMsg, List.append_assoc]

/-- Claim C6, counterexample: a supplier module whose import raises an
exception other than `ImportError` (e.g. a `SyntaxError` from a malformed
module) is caught by nothing — `get_supplier_classes` aborts with the
escaping exception instead of skipping the module, refuting the claims that
every module that fails to import is merely skipped and that no exception
escapes registry construction. -/
theorem registry_discovery_cex :
    get_supplier_classes [("supplier_x", ModuleLoadResult.importRaise)] id =
      Except.error PyExc.importRaised := rfl

/-- Claim C6, amended: a supplier module failing to import with an
`ImportError`, or defining zero or more than one `Supplier` subclass, is
skipped after logging an error without aborting discovery of the remaining
modules; when fewer suppliers end up loaded than available, the counts are
reported as a hint (and the discovery diagnostics contain no hint otherwise);
no exception escapes provided no module import raises an exception other than
`ImportError` (a malformed module raising e.g. `SyntaxError` aborts
discovery, as the counterexample shows). -/
theorem registry_discovery (modules : List (String × ModuleLoadResult))
    (cfg : List String → List String)
    (h : ∀ m ∈ modules, m.2 ≠ ModuleLoadResult.importRaise) :
    get_supplier_classes modules cfg =
      Except.ok (availOf modules, cfg (availOf modules),
        discoveryLogs modules ++
          (if (cfg (availOf modules)).length < (availOf modules).length
           then [LogMsg.logHint
              (onlyLoadedHint (cfg (availOf modules)).length (availOf modules).length)]
           else []))
    ∧ ∀ msg, LogMsg.logHint msg ∉ discoveryLogs modules := by
  constructor
  · rw [show get_supplier_classes modules cfg = (match discoverLoop modules [] [] with
      | Except.error e => Except.error e
      | Except.ok (avail, logs) =>
        Except.ok (avail, cfg avail,
          if (cfg avail).length < avail.length
          then logs ++ [LogMsg.logHint (onlyLoadedHint (cfg avail).length avail.length)]
          else logs) : Except PyExc (List String × List String × List LogMsg)) from rfl]
    rw [discoverLoop_eq modules [] [] h]
    simp only [List.nil_append]
    by_cases hlt : (cfg (availOf modules)).length < (availOf modules).length
    · simp [hlt]
    · simp [hlt]
  · intro msg hmem
    rcases List.mem_filterMap.mp hmem with ⟨m, _, hm⟩
    rcases Option.map_eq_some'.mp hm with ⟨s, _, hcontra⟩
    exact LogMsg.noConfusion hcontra

/-- Witness for the amended claim C6: three modules, one good, one failing
with `ImportError`, one defining no `Supplier` class; with a configuration
loading none of them, discovery yields one available supplier, two skip
errors (one per bad module), and the count-mismatch hint. -/
theorem registry_discovery_witness :
    get_supplier_classes regModules (fun _ => []) =
      Except.ok (availOf regModules, [],
        discoveryLogs regModules ++
          (if ([] : List String).length < (availOf regModules).length
           then [LogMsg.logHint (onlyLoadedHint ([] : List String).length
              (availOf regModules).length)]
           else [])) :=
  (registry_discovery regModules (fun _ => []) (by decide)).1

/-! ## Claim C7 -/

theorem fePricing_foldl_keys (m : Int) (entries : List FEPricingEntry) :
    ∀ (pricing : List (Int × ℚ)) (best : Option ℚ),
    ∀ kv ∈ (entries.foldl (fePricingStep m) (pricing, best)).1,
      kv ∈ pricing ∨ m < kv.1 := by
  induction entries with
  | nil => intro pricing best kv hkv; exact Or.inl hkv
  | cons v rest ih =>
    intro pricing best kv hkv
    rw [List.foldl_cons] at hkv
    by_cases hle : v.quantity_from ≤ m
    · have hstep : fePricingStep m (pricing, best) v =
          (pricing, match best with
            | none => some v.unit_price
            | some b2 => if v.unit_price < b2 then some v.unit_price else some b2) := by
        cases best <;> simp [fePricingStep, hle]
      rw [hstep] at hkv
      exact ih pricing _ kv hkv
    · have hstep : fePricingStep m (pricing, best) v =
          (dictInsert pricing v.quantity_from v.unit_price, best) := by
        simp [fePricingStep, hle]
      rw [hstep] at hkv
      rcases ih _ best kv hkv with h | h
      · rcases mem_dictInsert pricing _ _ kv h with h2 | h2
        · rw [h2]
          exact Or.inr (lt_of_not_ge hle)
        · exact Or.inl h2
      · exact Or.inr h

theorem fePriceBreaks_keys (m : Int) (entries : List FEPricingEntry) :
    ∀ kv ∈ fePriceBreaks m entries, kv.1 = m ∨ m < kv.1 := by
  intro kv hkv
  rw [show fePriceBreaks m entries = (match (entries.foldl (fePricingStep m) ([], none)).2 with
    | none => (entries.foldl (fePricingStep m) ([], none)).1
    | some best => dictInsert (entries.foldl (fePricingStep m) ([], none)).1 m best)
    from rfl] at hkv
  rcases hb : (entries.foldl (fePricingStep m) ([], none)).2 with _ | best
  · rw [hb] at hkv
    rcases fePricing_foldl_keys m entries [] none kv hkv with h | h
    · exact absurd h (List.not_mem_nil kv)
    · exact Or.inr h
  · rw [hb] at hkv
    rcases mem_dictInsert _ m best kv hkv with h | h
    · rw [h]; exact Or.inl rfl
    · rcases fePricing_foldl_keys m entries [] none kv h with h2 | h2
      · exact absurd h2 (List.not_mem_nil kv)
      · exact Or.inr h2

theorem tiSelect_mem_or_default (target : String) (l : List TIPricing) :
    ∀ acc : TIPricing, tiSelectPricing target acc l = acc ∨ tiSelectPricing target acc l ∈ l := by
  induction l with
  | nil => intro acc; exact Or.inl rfl
  | cons v rest ih =>
    intro acc
    by_cases hv : v.currency = target
    · simp only [tiSelectPricing, if_pos hv]
      exact Or.inr (List.mem_cons_self _ _)
    · by_cases husd : v.currency = "USD"
      · simp only [tiSelectPricing, if_neg hv, if_pos husd]
        rcases ih v with h | h
        · exact Or.inr (by rw [h]; exact List.mem_cons_self _ _)
        · exact Or.inr (List.mem_cons_of_mem _ h)
      · simp only [tiSelectPricing, if_neg hv, if_neg husd]
        rcases ih acc with h | h
        · exact Or.inl h
        · exact Or.inr (List.mem_cons_of_mem _ h)

theorem tiPriceBreaksDict_keys (breaks : List TIPriceBreak) :
    ∀ kv ∈ tiPriceBreaksDict breaks, ∃ pb ∈ breaks, kv.1 = pb.priceBreakQuantity := by
  have haux : ∀ (bs : List TIPriceBreak) (d : List (Int × ℚ)),
      ∀ kv ∈ bs.foldl (fun d v => dictInsert d v.priceBreakQuantity v.price) d,
        kv ∈ d ∨ ∃ pb ∈ bs, kv.1 = pb.priceBreakQuantity := by
    intro bs
    induction bs with
    | nil => intro d kv hkv; exact Or.inl hkv
    | cons pb rest ih =>
      intro d kv hkv
      rw [List.foldl_cons] at hkv
      rcases ih _ kv hkv with h | h
      · rcases mem_dictInsert d _ _ kv h with h2 | h2
        · exact Or.inr ⟨pb, List.mem_cons_self _ _, by rw [h2]⟩
        · exact Or.inl h2
      · rcases h with ⟨pb2, hpb2, hk⟩
        exact Or.inr ⟨pb2, List.mem_cons_of_mem _ hpb2, hk⟩
  intro kv hkv
  rcases haux breaks [] kv hkv with h | h
  · exact absurd h (List.not_mem_nil kv)
  · exact h

/-- Claim C7, counterexample: the adapters copy identifiers, stock counts and
break quantities through from the upstream response without validation, so an
upstream FE offer with empty seller part number and mpn, stock count -1,
minimum order quantity 0 and a price break at quantity 0 produces a Canonical
Part Record violating every part of the claimed invariant. -/
theorem record_invariant_cex :
    (FE.get_api_part badFEPart).SKU = "" ∧ (FE.get_api_part badFEPart).MPN = ""
    ∧ (FE.get_api_part badFEPart).quantity_available = -1
    ∧ (0, (1 : ℚ)) ∈ (FE.get_api_part badFEPart).price_breaks
    ∧ ¬ recordInvariant (FE.get_api_part badFEPart) := by
  refine ⟨rfl, rfl, rfl, ?_, ?_⟩
  · show (0, (1 : ℚ)) ∈ [((0 : Int), (1 : ℚ))]
    exact List.mem_cons_self _ _
  · intro hinv
    exact hinv.1 ⟨rfl, rfl⟩

/-- Claim C7, amended: the adapters pass `sku`, `mpn`, stock counts and break
quantities through from the upstream response unvalidated, so the invariant
holds exactly when the upstream response itself satisfies it: for an FE offer
whose identifiers are not both empty, whose stock count is non-negative and
whose minimum order quantity is at least 1, and for a TI product whose part
number is non-empty, whose stock count is non-negative and whose price-break
quantities are all positive, the produced Canonical Part Records satisfy the
invariant (`sku`/`mpn` not both empty, `quantity_available ≥ 0`, all
price-break keys positive). -/
theorem record_invariant_conditional (fe_part : FEPart) (target : String) (ti_part : TIPart)
    (hfe_id : ¬(fe_part.part_id.seller_part_number = "" ∧ fe_part.part_id.mpn = ""))
    (hfe_qty : 0 ≤ fe_part.quantities.quantity_available)
    (hfe_min : 1 ≤ fe_part.quantities.quantity_minimum)
    (hti_id : ti_part.tiPartNumber ≠ "")
    (hti_qty : 0 ≤ ti_part.quantity)
    (hti_breaks : ∀ pl ∈ ti_part.pricing, ∀ pb ∈ pl.priceBreaks, 0 < pb.priceBreakQuantity) :
    recordInvariant (FE.get_api_part fe_part)
    ∧ recordInvariant (TI.get_api_part target ti_part) := by
  constructor
  · refine ⟨hfe_id, hfe_qty, ?_⟩
    intro kv hkv
    rcases fePriceBreaks_keys fe_part.quantities.quantity_minimum fe_part.pricing kv hkv
      with h | h
    · rw [h]; exact lt_of_lt_of_le (by norm_num) hfe_min
    · exact lt_of_le_of_lt (le_trans (by norm_num) hfe_min) h
  · refine ⟨fun hboth => hti_id hboth.1, hti_qty, ?_⟩
    intro kv hkv
    have hkv2 : kv ∈ tiPriceBreaksDict
        (tiSelectPricing target ⟨target, []⟩ ti_part.pricing).priceBreaks := hkv
    rcases tiSelect_mem_or_default target ti_part.pricing ⟨target, []⟩ with hsel | hsel
    · rw [hsel] at hkv2
      exact absurd hkv2 (List.not_mem_nil kv)
    · rcases tiPriceBreaksDict_keys _ kv hkv2 with ⟨pb, hpb, hk⟩
      rw [hk]
      exact hti_breaks _ hsel pb hpb

/-- Witness for the amended claim C7 at well-formed concrete upstream parts. -/
theorem record_invariant_conditional_witness :
    recordInvariant (FE.get_api_part goodFEPart)
    ∧ recordInvariant (TI.get_api_part "EUR" euUsdTIPart) :=
  record_invariant_conditional goodFEPart "EUR" euUsdTIPart
    (by decide) (by decide) (by decide) (by decide) (by decide) (by decide)

/-! ## Claim C8 -/

/-- Claim C8: `_getOauthToken` returns the cached bearer token without sending
a refresh request whenever the current time is more than 60 seconds before the
cached expiry; otherwise a refresh request is sent, and on a successful bearer
response the cache is updated so that the new expiry equals the request time
plus the reported `expires_in` (and the new token is returned). -/
theorem ti_token_cache (now : ℚ) (req : TokenOutcome) (st : TIAuthState) :
    (now < st.oauthValidUntil - 60 →
      TIApi.getOauthToken now req st = (Except.ok (some st.oauthAccessToken), st, false))
    ∧ (¬ now < st.oauthValidUntil - 60 →
        (TIApi.getOauthToken now req st).2.2 = true
        ∧ ∀ j : TokenJson, req = TokenOutcome.response 200 (some j) →
            j.token_type = "bearer" →
            TIApi.getOauthToken now req st =
              (Except.ok (some j.access_token),
                ⟨j.access_token, now + j.expires_in⟩, true)) := by
  constructor
  · intro h
    simp [TIApi.getOauthToken, h]
  · intro h
    constructor
    · rcases req with _ | ⟨status, body⟩
      · simp [TIApi.getOauthToken, h]
      · rcases body with _ | j
        · simp only [TIApi.getOauthToken, if_neg h]
          split <;> rfl
        · simp only [TIApi.getOauthToken, if_neg h]
          split
          · rfl
          · split <;> rfl
    · intro j hreq hbearer
      subst hreq
      simp [TIApi.getOauthToken, h, hbearer]

/-- Witness for claim C8: with cached expiry 100, at time 10 the cached token
is reused without a request; at time 50 (within the 60 second buffer) a
refresh is sent and a bearer response with `expires_in = 3600` updates the
cache to expire at `50 + 3600`. -/
theorem ti_token_cache_witness :
    TIApi.getOauthToken 10 TokenOutcome.failed ⟨"cached", 100⟩ =
      (Except.ok (some "cached"), ⟨"cached", 100⟩, false)
    ∧ TIApi.getOauthToken 50 (TokenOutcome.response 200 (some ⟨"bearer", "fresh", 3600⟩))
        ⟨"cached", 100⟩ =
      (Except.ok (some "fresh"), ⟨"fresh", 50 + 3600⟩, true) :=
  ⟨(ti_token_cache 10 TokenOutcome.failed ⟨"cached", 100⟩).1 (by norm_num),
   ((ti_token_cache 50 (TokenOutcome.response 200 (some ⟨"bearer", "fresh", 3600⟩))
      ⟨"cached", 100⟩).2 (by norm_num)).2 ⟨"bearer", "fresh", 3600⟩ rfl rfl⟩

/-! ## Claim C9 -/

/-- Claim C9 concerns a code bug: when every attempt of the retried request
raises `Timeout`, the `except (HTTPError, Timeout)` handler of
`FEApi._do_request` evaluates `result.json()` with the local `result` never
bound, raising an `UnboundLocalError` that nothing catches; and a
`ConnectionError` surviving the retry policy matches neither `HTTPError` nor
`Timeout` and escapes directly.  `TIApi._do_request` shares both defects.  So
`_do_request` does let exceptions escape instead of always returning a
response or `None`. -/
theorem do_request_exception_escapes :
    FEApi.do_request SendOutcome.timeout = Except.error PyExc.unboundLocalError
    ∧ FEApi.do_request SendOutcome.connFailure = Except.error PyExc.connectionError
    ∧ TIApi.do_request TISendOutcome.timeout = Except.error PyExc.unboundLocalError
    ∧ TIApi.do_request TISendOutcome.connFailure = Except.error PyExc.connectionError :=
  ⟨rfl, rfl, rfl, rfl⟩

/-! ## Claim C10 -/

theorem paginateLoop_pages (contents : List (List TIPart)) :
    ∀ (fuel p : Nat) (acc : List TIPart), p < contents.length →
      contents.length - p ≤ fuel →
      paginateLoop (apiOfPages contents) fuel p acc =
        some (some (acc ++ (contents.drop p).flatten)) := by
  intro fuel
  induction fuel with
  | zero => intro p acc hp hf; omega
  | succ fuel ih =>
    intro p acc hp hf
    have hapi : apiOfPages contents 100 p =
        PageOutcome.page 200 (contents.getD p []) (decide (p + 1 = contents.length)) := by
      simp [apiOfPages, hp]
    simp only [paginateLoop, hapi]
    rw [if_neg (by norm_num)]
    by_cases hlast : p + 1 = contents.length
    · rw [if_pos (by simpa using hlast)]
      rw [List.drop_eq_getElem_cons hp,
        List.drop_eq_nil_of_le (by omega), List.flatten_cons, List.flatten_nil,
        List.append_nil, List.getD_eq_getElem contents [] hp]
    · rw [if_neg (by simpa using hlast)]
      have hp2 : p + 1 < contents.length := by omega
      rw [ih (p + 1) (acc ++ contents.getD p []) hp2 (by omega)]
      rw [List.drop_eq_getElem_cons hp, List.flatten_cons,
        List.getD_eq_getElem contents [] hp, List.append_assoc]

theorem paginateLoop_failAt (contents : List (List TIPart)) (j : Nat) :
    ∀ (fuel p : Nat) (acc : List TIPart), p ≤ j → j < contents.length →
      j + 1 - p ≤ fuel →
      paginateLoop (apiFailAt contents j) fuel p acc = some none := by
  intro fuel
  induction fuel with
  | zero => intro p acc hp hj hf; omega
  | succ fuel ih =>
    intro p acc hp hj hf
    by_cases hpj : p = j
    · have hapi : apiFailAt contents j 100 p = PageOutcome.failed := by
        simp [apiFailAt, hpj]
      simp [paginateLoop, hapi]
    · have hplt : p < j := lt_of_le_of_ne hp hpj
      have hpl : p < contents.length := by omega
      have hapi : apiFailAt contents j 100 p =
          PageOutcome.page 200 (contents.getD p []) (decide (p + 1 = contents.length)) := by
        simp [apiFailAt, hpj, apiOfPages, hpl]
      simp only [paginateLoop, hapi]
      rw [if_neg (by norm_num), if_neg (by simp; omega)]
      exact ih (p + 1) _ (by omega) hj (by omega)

theorem paginateLoop_forbiddenAt (contents : List (List TIPart)) (j : Nat) :
    ∀ (fuel p : Nat) (acc : List TIPart), p ≤ j → j < contents.length →
      j + 1 - p ≤ fuel →
      paginateLoop (apiForbiddenAt contents j) fuel p acc = some none := by
  intro fuel
  induction fuel with
  | zero => intro p acc hp hj hf; omega
  | succ fuel ih =>
    intro p acc hp hj hf
    by_cases hpj : p = j
    · have hapi : apiForbiddenAt contents j 100 p = PageOutcome.page 403 [] false := by
        simp [apiForbiddenAt, hpj]
      simp [paginateLoop, hapi]
    · have hplt : p < j := lt_of_le_of_ne hp hpj
      have hpl : p < contents.length := by omega
      have hapi : apiForbiddenAt contents j 100 p =
          PageOutcome.page 200 (contents.getD p []) (decide (p + 1 = contents.length)) := by
        simp [apiForbiddenAt, hpj, apiOfPages, hpl]
      simp only [paginateLoop, hapi]
      rw [if_neg (by norm_num), if_neg (by simp; omega)]
      exact ih (p + 1) _ (by omega) hj (by omega)

theorem paginateLoop_notFoundAt (contents : List (List TIPart)) (j : Nat) :
    ∀ (fuel p : Nat) (acc : List TIPart), p ≤ j → j < contents.length →
      j + 1 - p ≤ fuel →
      paginateLoop (apiNotFoundAt contents j) fuel p acc = some none := by
  intro fuel
  induction fuel with
  | zero => intro p acc hp hj hf; omega
  | succ fuel ih =>
    intro p acc hp hj hf
    by_cases hpj : p = j
    · have hapi : apiNotFoundAt contents j 100 p = PageOutcome.page 404 [] false := by
        simp [apiNotFoundAt, hpj]
      simp [paginateLoop, hapi]
    · have hplt : p < j := lt_of_le_of_ne hp hpj
      have hpl : p < contents.length := by omega
      have hapi : apiNotFoundAt contents j 100 p =
          PageOutcome.page 200 (contents.getD p []) (decide (p + 1 = contents.length)) := by
        simp [apiNotFoundAt, hpj, apiOfPages, hpl]
      simp only [paginateLoop, hapi]
      rw [if_neg (by norm_num), if_neg (by simp; omega)]
      exact ih (p + 1) _ (by omega) hj (by omega)

/-- Claim C10: against an upstream serving the pages `contents` (each request
made with size 100 and in-range page number, pages numbered from 0, only the
final page flagged `last`), `_paginate_api_call` returns the concatenation of
all page contents in page order; if instead any page request up to the final
one fails (`_api_call` returning `None`) or answers with HTTP status 403 or
404, the whole call returns `None`, discarding the pages already fetched.
(`apiOfPages` answers only requests with size 100 and page numbers below
`contents.length`, so the successful run also certifies that exactly those
requests are made.) -/
theorem ti_paginate (contents : List (List TIPart)) (j fuel : Nat)
    (hne : contents ≠ []) (hj : j < contents.length) (hfuel : contents.length ≤ fuel) :
    TIApi.paginate_api_call (apiOfPages contents) fuel = some (some contents.flatten)
    ∧ TIApi.paginate_api_call (apiFailAt contents j) fuel = some none
    ∧ TIApi.paginate_api_call (apiForbiddenAt contents j) fuel = some none
    ∧ TIApi.paginate_api_call (apiNotFoundAt contents j) fuel = some none := by
  have hlen : 0 < contents.length := List.length_pos.mpr hne
  refine ⟨?_, ?_, ?_, ?_⟩
  · rw [TIApi.paginate_api_call, paginateLoop_pages contents fuel 0 [] hlen (by omega)]
    simp
  · exact paginateLoop_failAt contents j fuel 0 [] (Nat.zero_le j) hj (by omega)
  · exact paginateLoop_forbiddenAt contents j fuel 0 [] (Nat.zero_le j) hj (by omega)
  · exact paginateLoop_notFoundAt contents j fuel 0 [] (Nat.zero_le j) hj (by omega)

/-- Witness for claim C10: two pages, the second one last; the successful run
concatenates them, and failing, getting a 403 or getting a 404 at page 1
discards page 0. -/
theorem ti_paginate_witness :
    TIApi.paginate_api_call (apiOfPages [[euUsdTIPart], []]) 2 =
      some (some ([[euUsdTIPart], []] : List (List TIPart)).flatten)
    ∧ TIApi.paginate_api_call (apiFailAt [[euUsdTIPart], []] 1) 2 = some none
    ∧ TIApi.paginate_api_call (apiForbiddenAt [[euUsdTIPart], []] 1) 2 = some none
    ∧ TIApi.paginate_api_call (apiNotFoundAt [[euUsdTIPart], []] 1) 2 = some none :=
  ti_paginate [[euUsdTIPart], []] 1 2 (by simp) (by simp) (by simp)
